import Mathlib

/-!
Verification of `wav_split.py`: the Framer (`frame_generator`) and the
voiced-segment Collector (`vad_collector`).

Modelling conventions:
* PCM byte buffers are `List ℕ`.
* Python floats are modelled as `ℚ`.  The two float expressions that
  influence control flow or data (`int(sample_rate * (frame_duration_ms
  / 1000.0) * 2)` and the threshold test `count > 0.9 * maxlen`) are
  each given a direct rational transcription (`frameSizeSpec`,
  `thresholdSpec`) together with an executable integer form
  (`frameSize`, `exceedsThreshold`) and a proof that the two coincide.
  For the integer operands that actually occur, the IEEE-754 double
  evaluation performed by Python agrees with the exact rational value
  (checked separately for the spec's concrete parameters, e.g.
  `int(16000 * (30 / 1000.0) * 2) = 960` and `0.9 * 10 = 9.0` exactly
  in double precision).
* Python generators are modelled as functions returning the list of all
  yielded values; the classifier is an injected function, and a fallible
  classifier is modelled with `Except`.
-/

namespace WavSplit

/-- The `Frame` record of the source: raw bytes, start timestamp (s),
duration (s). -/
structure Frame where
  bytes : List ℕ
  timestamp : ℚ
  duration : ℚ
deriving DecidableEq

/-- Rational transcription of the source's frame byte count
`n = int(sample_rate * (frame_duration_ms / 1000.0) * 2)` (the value is
nonnegative, so `int` truncation is the floor). -/
def frameSizeSpec (frame_duration_ms sample_rate : ℕ) : ℕ :=
  Nat.floor ((sample_rate : ℚ) * ((frame_duration_ms : ℚ) / 1000) * 2)

/-- Executable form of `frameSizeSpec` (see `frameSize_eq_spec`). -/
def frameSize (frame_duration_ms sample_rate : ℕ) : ℕ :=
  sample_rate * frame_duration_ms * 2 / 1000

/-- The frame duration reported by the Framer:
`duration = (float(n) / sample_rate) / 2.0`, computed from `n`. -/
def frameDuration (n sample_rate : ℕ) : ℚ :=
  (n : ℚ) / (sample_rate : ℚ) / 2

/-- The `while offset + n < len(audio)` loop of `frame_generator`,
with explicit fuel (the loop makes at most `audio.length` iterations
whenever `0 < n`). -/
def frameLoop (n : ℕ) (audio : List ℕ) (duration : ℚ) :
    ℕ → ℕ → ℚ → List Frame
  | 0, _, _ => []
  | fuel + 1, offset, timestamp =>
    if offset + n < audio.length then
      ⟨(audio.drop offset).take n, timestamp, duration⟩ ::
        frameLoop n audio duration fuel (offset + n) (timestamp + duration)
    else []

/-- `frame_generator(frame_duration_ms, audio, sample_rate)`:
yields `Frame(audio[offset:offset+n], timestamp, duration)` while
`offset + n < len(audio)`, starting from `offset = 0`,
`timestamp = 0.0`, advancing by `n` and `duration` each step. -/
def frame_generator (frame_duration_ms : ℕ) (audio : List ℕ)
    (sample_rate : ℕ) : List Frame :=
  frameLoop (frameSize frame_duration_ms sample_rate) audio
    (frameDuration (frameSize frame_duration_ms sample_rate) sample_rate)
    audio.length 0 0

/-- Rational transcription of the source's trigger test
`count > 0.9 * ring_buffer.maxlen` (an `int`/`float` comparison in
Python; Python compares the two exactly). -/
def thresholdSpec (count maxlen : ℕ) : Prop :=
  (count : ℚ) > (0.9 : ℚ) * (maxlen : ℚ)

/-- Executable form of `thresholdSpec` (see `exceedsThreshold_iff`). -/
def exceedsThreshold (count maxlen : ℕ) : Bool :=
  decide (9 * maxlen < 10 * count)

/-- `collections.deque(maxlen=...)` append: push `x` at the back and
evict from the front anything beyond capacity `maxlen`. -/
def dequeAppend (maxlen : ℕ) (buf : List (Frame × Bool))
    (x : Frame × Bool) : List (Frame × Bool) :=
  if maxlen < buf.length + 1 then
    (buf ++ [x]).drop (buf.length + 1 - maxlen)
  else buf ++ [x]

/-- `num_voiced = len([f for f, speech in ring_buffer if speech])`. -/
def numVoiced (buf : List (Frame × Bool)) : ℕ :=
  (buf.filter fun p => p.2).length

/-- `num_unvoiced = len([f for f, speech in ring_buffer if not speech])`. -/
def numUnvoiced (buf : List (Frame × Bool)) : ℕ :=
  (buf.filter fun p => !p.2).length

/-- The mutable state of `vad_collector`'s loop: the `triggered` flag,
the ring buffer of (frame, vote) pairs (oldest first) and the
accumulating `voiced_frames` list. -/
structure VadState where
  triggered : Bool
  ring_buffer : List (Frame × Bool)
  voiced_frames : List Frame
deriving DecidableEq

/-- Initial collector state: `NOT_TRIGGERED`, empty ring buffer, empty
segment list. -/
def initState : VadState := ⟨false, [], []⟩

/-- `b''.join([f.bytes for f in fs])`. -/
def segmentBytes (fs : List Frame) : List ℕ :=
  (fs.map Frame.bytes).flatten

/-- One iteration of `vad_collector`'s loop body, for a frame with a
given classifier vote; returns the successor state and the segment
yielded by this iteration, if any. -/
def vadStepCore (maxlen : ℕ) (st : VadState) (frame : Frame)
    (is_speech : Bool) : VadState × Option (List ℕ) :=
  if st.triggered = false then
    let rb := dequeAppend maxlen st.ring_buffer (frame, is_speech)
    if exceedsThreshold (numVoiced rb) maxlen then
      (⟨true, [], st.voiced_frames ++ rb.map Prod.fst⟩, none)
    else
      (⟨false, rb, st.voiced_frames⟩, none)
  else
    let voiced := st.voiced_frames ++ [frame]
    let rb := dequeAppend maxlen st.ring_buffer (frame, is_speech)
    if exceedsThreshold (numUnvoiced rb) maxlen then
      (⟨false, [], []⟩, some (segmentBytes voiced))
    else
      (⟨true, rb, voiced⟩, none)

/-- The `for frame in frames` loop of `vad_collector`: the classifier is
consulted as `vad(frame.bytes, sample_rate)`; returns the yielded
segments in order together with the state after the loop. -/
def vadRun (sample_rate maxlen : ℕ) (vad : List ℕ → ℕ → Bool) :
    VadState → List Frame → List (List ℕ) × VadState
  | st, [] => ([], st)
  | st, frame :: rest =>
    let out := vadStepCore maxlen st frame (vad frame.bytes sample_rate)
    let next := vadRun sample_rate maxlen vad out.1 rest
    (out.2.toList ++ next.1, next.2)

/-- `num_padding_frames = int(padding_duration_ms / frame_duration_ms)`
(both are ints; the value is nonnegative, so this is floor division). -/
def numPaddingFrames (padding_duration_ms frame_duration_ms : ℕ) : ℕ :=
  padding_duration_ms / frame_duration_ms

/-- `vad_collector`: run the loop from the initial state, then flush the
leftover `voiced_frames` as a final segment if non-empty. -/
def vad_collector (sample_rate frame_duration_ms padding_duration_ms : ℕ)
    (vad : List ℕ → ℕ → Bool) (frames : List Frame) : List (List ℕ) :=
  let run := vadRun sample_rate
    (numPaddingFrames padding_duration_ms frame_duration_ms) vad
    initState frames
  if run.2.voiced_frames.isEmpty then run.1
  else run.1 ++ [segmentBytes run.2.voiced_frames]

/-- The collector loop with a fallible classifier: an exception raised
by `vad.is_speech` aborts the generator; the segments yielded before the
failing call stand, and the error is propagated. -/
def vadRunE {ε : Type} (sample_rate maxlen : ℕ)
    (vad : List ℕ → ℕ → Except ε Bool) :
    VadState → List Frame → List (List ℕ) × Except ε VadState
  | st, [] => ([], Except.ok st)
  | st, frame :: rest =>
    match vad frame.bytes sample_rate with
    | Except.error e => ([], Except.error e)
    | Except.ok is_speech =>
      let out := vadStepCore maxlen st frame is_speech
      let next := vadRunE sample_rate maxlen vad out.1 rest
      (out.2.toList ++ next.1, next.2)

/-- `vad_collector` with a fallible classifier: the final flush happens
only when the input was exhausted without a classifier error; on error
the segments yielded so far are returned with the error. -/
def vad_collectorE {ε : Type}
    (sample_rate frame_duration_ms padding_duration_ms : ℕ)
    (vad : List ℕ → ℕ → Except ε Bool) (frames : List Frame) :
    List (List ℕ) × Option ε :=
  match vadRunE sample_rate
      (numPaddingFrames padding_duration_ms frame_duration_ms) vad
      initState frames with
  | (segs, Except.ok st) =>
    (if st.voiced_frames.isEmpty then segs
     else segs ++ [segmentBytes st.voiced_frames], none)
  | (segs, Except.error e) => (segs, some e)

/-! Derived observations used to state the claims. -/

/-- The (frame, vote) pairs of a frame list, in arrival order. -/
def votesOf (sample_rate : ℕ) (vad : List ℕ → ℕ → Bool)
    (frames : List Frame) : List (Frame × Bool) :=
  frames.map fun f => (f, vad f.bytes sample_rate)

/-- The last `W` elements of a list (all of it when it is shorter). -/
def lastN (W : ℕ) (l : List (Frame × Bool)) : List (Frame × Bool) :=
  l.drop (l.length - W)

/-- Collector state after processing the first `k` frames. -/
def stateAfter (sample_rate W : ℕ) (vad : List ℕ → ℕ → Bool)
    (frames : List Frame) (k : ℕ) : VadState :=
  (vadRun sample_rate W vad initState (frames.take k)).2

/-- Segments yielded while processing the first `k` frames. -/
def outputsAfter (sample_rate W : ℕ) (vad : List ℕ → ℕ → Bool)
    (frames : List Frame) (k : ℕ) : List (List ℕ) :=
  (vadRun sample_rate W vad initState (frames.take k)).1

/-- Segments yielded by the loop over the whole input (before the final
flush). -/
def runOutputs (sample_rate W : ℕ) (vad : List ℕ → ℕ → Bool)
    (frames : List Frame) : List (List ℕ) :=
  (vadRun sample_rate W vad initState frames).1

/-- Collector state after the loop over the whole input. -/
def finalState (sample_rate W : ℕ) (vad : List ℕ → ℕ → Bool)
    (frames : List Frame) : VadState :=
  (vadRun sample_rate W vad initState frames).2

/-- The trigger condition evaluated at frame `i`: the voiced votes among
the last `W` of the first `i + 1` (frame, vote) pairs exceed the
threshold. -/
def trigAt (sample_rate W : ℕ) (vad : List ℕ → ℕ → Bool)
    (frames : List Frame) (i : ℕ) : Bool :=
  exceedsThreshold
    (numVoiced (lastN W (votesOf sample_rate vad (frames.take (i + 1))))) W

/-- `B` is the byte concatenation of a non-empty consecutive run of
`frames` (the frames at indices `a, a+1, …, b-1`). -/
def isSegmentOf (B : List ℕ) (frames : List Frame) : Prop :=
  ∃ a b, a < b ∧ b ≤ frames.length ∧
    B = segmentBytes ((frames.drop a).take (b - a))

/-! Concrete inputs used by the spec's scenario, by witnesses and by
counterexamples. -/

/-- The scenario's vote pattern `[False]*5 + [True]*15 + [False]*5`. -/
def scenarioVotes : List Bool :=
  List.replicate 5 false ++ List.replicate 15 true ++ List.replicate 5 false

/-- 25 frames; frame `i` carries the single byte `i`, so a classifier
can recover the frame index from the bytes. -/
def scenarioFrames : List Frame :=
  (List.range 25).map fun i => ⟨[i], 0, 0⟩

/-- Classifier voting `scenarioVotes[i]` on the frame with bytes `[i]`. -/
def scenarioVad (bytes : List ℕ) (_sample_rate : ℕ) : Bool :=
  scenarioVotes.getD (bytes.headD 0) false

/-- A 33-byte buffer, used to exercise the Framer with `n = 16`. -/
def witAudio : List ℕ := List.range 33

/-- A classifier that votes voiced on every frame. -/
def alwaysVoiced (_bytes : List ℕ) (_sample_rate : ℕ) : Bool := true

/-- A frame with empty payload. -/
def emptyFrame : Frame := ⟨[], 0, 0⟩

/-- A fallible classifier: succeeds (voiced) on frames whose first byte
is `0`, raises error `7` otherwise. -/
def errVad (bytes : List ℕ) (_sample_rate : ℕ) : Except ℕ Bool :=
  if bytes.headD 0 == 0 then Except.ok true else Except.error 7

/-- Structural invariant of the collector loop relative to the frames
processed so far: the segment list is empty while `NOT_TRIGGERED`, and
both the segment list and the ring buffer hold a suffix of (the votes
of) the processed frames. -/
def SegInv (sample_rate : ℕ) (vad : List ℕ → ℕ → Bool)
    (processed : List Frame) (st : VadState) : Prop :=
  (st.triggered = false → st.voiced_frames = []) ∧
  (∃ a, a ≤ processed.length ∧ st.voiced_frames = processed.drop a) ∧
  (∃ c, c ≤ processed.length ∧
    st.ring_buffer = (votesOf sample_rate vad processed).drop c)

/-! Basic facts about the two float expressions. -/

/-- The executable `frameSize` agrees with the rational transcription of
`int(sample_rate * (frame_duration_ms / 1000.0) * 2)`. -/
theorem frameSize_eq_spec (frame_duration_ms sample_rate : ℕ) :
    frameSize frame_duration_ms sample_rate =
      frameSizeSpec frame_duration_ms sample_rate := by
  unfold frameSize frameSizeSpec
  have h : (sample_rate : ℚ) * ((frame_duration_ms : ℚ) / 1000) * 2 =
      ((sample_rate * frame_duration_ms * 2 : ℕ) : ℚ) / ((1000 : ℕ) : ℚ) := by
    push_cast
    ring
  rw [h, Nat.floor_div_nat, Nat.floor_natCast]

/-- The executable threshold test agrees with the rational transcription
of `count > 0.9 * maxlen`. -/
theorem exceedsThreshold_iff (count maxlen : ℕ) :
    exceedsThreshold count maxlen = true ↔ thresholdSpec count maxlen := by
  unfold exceedsThreshold thresholdSpec
  rw [decide_eq_true_iff]
  rw [gt_iff_lt, show (0.9 : ℚ) = 9 / 10 by norm_num, div_mul_eq_mul_div,
    div_lt_iff₀ (by norm_num : (0 : ℚ) < 10)]
  rw [show (9 * maxlen < 10 * count ↔
      ((9 * maxlen : ℕ) : ℚ) < ((10 * count : ℕ) : ℚ)) from Nat.cast_lt.symm]
  push_cast
  constructor <;> intro h <;> linarith

/-- A positive frame size forces a positive sample rate. -/
theorem frameSize_pos_sample_rate {frame_duration_ms sample_rate : ℕ}
    (h : 0 < frameSize frame_duration_ms sample_rate) : 0 < sample_rate := by
  rcases Nat.eq_zero_or_pos sample_rate with h0 | h1
  · subst h0
    simp [frameSize] at h
  · exact h1

/-- The reported frame duration is positive whenever the frame size and
the sample rate are. -/
theorem frameDuration_pos {n sample_rate : ℕ} (hn : 0 < n)
    (hsr : 0 < sample_rate) : 0 < frameDuration n sample_rate := by
  unfold frameDuration
  positivity

/-! The Framer: closed form of the generated frame list. -/

/-- Element `k` of the frame loop started at `offset`: present exactly
when `offset + k*n + n < audio.length`, and then it is the `n`-byte
slice at `offset + k*n` with timestamp `ts + k·dur`. -/
theorem frameLoop_getElem (n : ℕ) (hn : 0 < n) (audio : List ℕ) (dur : ℚ) :
    ∀ fuel offset ts k, audio.length ≤ n * fuel + offset →
      (frameLoop n audio dur fuel offset ts)[k]? =
        if offset + k * n + n < audio.length
        then some ⟨(audio.drop (offset + k * n)).take n, ts + k * dur, dur⟩
        else none := by
  intro fuel
  induction fuel with
  | zero =>
    intro offset ts k hfuel
    rw [if_neg (by omega)]
    simp [frameLoop]
  | succ fuel ih =>
    intro offset ts k hfuel
    rw [frameLoop]
    by_cases h : offset + n < audio.length
    · rw [if_pos h]
      cases k with
      | zero =>
        rw [if_pos (by omega)]
        simp
      | succ k =>
        have e1 : offset + n + k * n = offset + (k + 1) * n := by ring
        have e2 : ts + dur + k * dur = ts + (((k + 1 : ℕ)) : ℚ) * dur := by
          push_cast
          ring
        have hfuel' : audio.length ≤ n * fuel + (offset + n) := by
          have : n * (fuel + 1) + offset = n * fuel + (offset + n) := by ring
          omega
        calc (⟨(audio.drop offset).take n, ts, dur⟩ ::
              frameLoop n audio dur fuel (offset + n) (ts + dur))[k + 1]? =
            (frameLoop n audio dur fuel (offset + n) (ts + dur))[k]? := by simp
          _ = _ := by rw [ih (offset + n) (ts + dur) k hfuel', e1, e2]
    · rw [if_neg h, if_neg (by omega)]
      simp

/-- Closed form for `frame_generator`: frame `k` exists exactly when
`k*n + n < audio.length`, and is the `n`-byte slice at offset `k*n`
with timestamp `k · duration`. -/
theorem frame_generator_getElem (frame_duration_ms sample_rate : ℕ)
    (audio : List ℕ) (k : ℕ)
    (hn : 0 < frameSize frame_duration_ms sample_rate) :
    (frame_generator frame_duration_ms audio sample_rate)[k]? =
      if k * frameSize frame_duration_ms sample_rate +
          frameSize frame_duration_ms sample_rate < audio.length
      then some ⟨(audio.drop (k * frameSize frame_duration_ms sample_rate)).take
            (frameSize frame_duration_ms sample_rate),
          (k : ℚ) * frameDuration (frameSize frame_duration_ms sample_rate) sample_rate,
          frameDuration (frameSize frame_duration_ms sample_rate) sample_rate⟩
      else none := by
  unfold frame_generator
  rw [frameLoop_getElem _ hn _ _ audio.length 0 0 k
    (by have := Nat.le_mul_of_pos_left audio.length hn; omega)]
  simp

/-- Index `k` is within the generated frame list exactly when the slice
`[k*n, k*n + n)` fits strictly inside the buffer. -/
theorem frame_generator_lt_length_iff (frame_duration_ms sample_rate : ℕ)
    (audio : List ℕ) (k : ℕ)
    (hn : 0 < frameSize frame_duration_ms sample_rate) :
    k < (frame_generator frame_duration_ms audio sample_rate).length ↔
      k * frameSize frame_duration_ms sample_rate +
        frameSize frame_duration_ms sample_rate < audio.length := by
  rw [← not_le, ← List.getElem?_eq_none_iff, frame_generator_getElem _ _ _ _ hn]
  by_cases h : k * frameSize frame_duration_ms sample_rate +
      frameSize frame_duration_ms sample_rate < audio.length
  · simp [h]
  · simp [h]

/-- The byte concatenation of the frame loop's output is the
corresponding contiguous slice of the buffer. -/
theorem frameLoop_flatten (n : ℕ) (audio : List ℕ) (dur : ℚ) :
    ∀ fuel offset ts, audio.length ≤ n * fuel + offset →
      ((frameLoop n audio dur fuel offset ts).map Frame.bytes).flatten =
        (audio.drop offset).take
          ((frameLoop n audio dur fuel offset ts).length * n) := by
  intro fuel
  induction fuel with
  | zero =>
    intro offset ts _
    simp [frameLoop]
  | succ fuel ih =>
    intro offset ts hfuel
    rw [frameLoop]
    by_cases h : offset + n < audio.length
    · rw [if_pos h]
      have hfuel' : audio.length ≤ n * fuel + (offset + n) := by
        have : n * (fuel + 1) + offset = n * fuel + (offset + n) := by ring
        omega
      simp only [List.map_cons, List.flatten_cons, List.length_cons]
      rw [ih (offset + n) (ts + dur) hfuel']
      rw [show ((frameLoop n audio dur fuel (offset + n) (ts + dur)).length + 1) * n =
        n + (frameLoop n audio dur fuel (offset + n) (ts + dur)).length * n by ring]
      rw [List.take_add, ← List.drop_drop]
    · rw [if_neg h]
      simp

/-- C3: with `n = int(sample_rate * (frame_duration_ms/1000) * 2)`, the
Framer emits the frame at byte offset `k*n` if and only if
`k*n + n < length(audio)` (a strict comparison, so both a trailing
partial remainder and a final chunk that exactly fills the remaining
bytes are dropped), and every emitted frame is exactly `n` bytes. -/
theorem frame_generator_emits_iff (frame_duration_ms sample_rate : ℕ)
    (audio : List ℕ) (k : ℕ)
    (hn : 0 < frameSize frame_duration_ms sample_rate) :
    ((frame_generator frame_duration_ms audio sample_rate)[k]? =
        some ⟨(audio.drop (k * frameSize frame_duration_ms sample_rate)).take
            (frameSize frame_duration_ms sample_rate),
          (k : ℚ) * frameDuration (frameSize frame_duration_ms sample_rate) sample_rate,
          frameDuration (frameSize frame_duration_ms sample_rate) sample_rate⟩ ↔
      k * frameSize frame_duration_ms sample_rate +
        frameSize frame_duration_ms sample_rate < audio.length) ∧
    (frame_generator frame_duration_ms audio sample_rate).map
        (fun f => f.bytes.length) =
      List.replicate (frame_generator frame_duration_ms audio sample_rate).length
        (frameSize frame_duration_ms sample_rate) := by
  constructor
  · rw [frame_generator_getElem _ _ _ _ hn]
    by_cases h : k * frameSize frame_duration_ms sample_rate +
        frameSize frame_duration_ms sample_rate < audio.length
    · simp [h]
    · simp [h]
  · rw [List.eq_replicate_iff]
    refine ⟨by simp, ?_⟩
    intro b hb
    rw [List.mem_map] at hb
    obtain ⟨f, hf, rfl⟩ := hb
    rw [List.mem_iff_getElem?] at hf
    obtain ⟨j, hj⟩ := hf
    rw [frame_generator_getElem _ _ _ _ hn] at hj
    by_cases h : j * frameSize frame_duration_ms sample_rate +
        frameSize frame_duration_ms sample_rate < audio.length
    · rw [if_pos h] at hj
      cases hj
      simp only [List.length_take, List.length_drop]
      omega
    · rw [if_neg h] at hj
      cases hj

/-- C3 witness: `n = frameSize 1 8000 = 16` is positive, and on the
33-byte buffer frame 1 (offset 16) is emitted since `16 + 16 < 33`. -/
theorem frame_generator_emits_iff_witness :
    0 < frameSize 1 8000 ∧
    ((frame_generator 1 witAudio 8000)[1]? =
        some ⟨(witAudio.drop (1 * frameSize 1 8000)).take (frameSize 1 8000),
          (1 : ℚ) * frameDuration (frameSize 1 8000) 8000,
          frameDuration (frameSize 1 8000) 8000⟩ ↔
      1 * frameSize 1 8000 + frameSize 1 8000 < witAudio.length) :=
  ⟨by decide, (frame_generator_emits_iff 1 8000 witAudio 1 (by decide)).1⟩

/-- The frame at a valid index `k`, as a plain equation. -/
theorem frame_generator_getElem_eq (frame_duration_ms sample_rate : ℕ)
    (audio : List ℕ) (k : ℕ)
    (hn : 0 < frameSize frame_duration_ms sample_rate)
    (hk : k < (frame_generator frame_duration_ms audio sample_rate).length) :
    (frame_generator frame_duration_ms audio sample_rate)[k] =
      ⟨(audio.drop (k * frameSize frame_duration_ms sample_rate)).take
          (frameSize frame_duration_ms sample_rate),
        (k : ℚ) * frameDuration (frameSize frame_duration_ms sample_rate) sample_rate,
        frameDuration (frameSize frame_duration_ms sample_rate) sample_rate⟩ := by
  have h1 := List.getElem?_eq_getElem hk
  rw [frame_generator_getElem _ _ _ _ hn,
    if_pos ((frame_generator_lt_length_iff _ _ _ _ hn).1 hk)] at h1
  exact (Option.some.inj h1).symm

/-- The total byte count of the generated frames fits in the buffer. -/
theorem frame_generator_length_mul_le (frame_duration_ms sample_rate : ℕ)
    (audio : List ℕ) (hn : 0 < frameSize frame_duration_ms sample_rate) :
    (frame_generator frame_duration_ms audio sample_rate).length *
      frameSize frame_duration_ms sample_rate ≤ audio.length := by
  rcases Nat.eq_zero_or_pos
    (frame_generator frame_duration_ms audio sample_rate).length with h0 | h1
  · simp [h0]
  · have hlt := (frame_generator_lt_length_iff frame_duration_ms sample_rate audio
      ((frame_generator frame_duration_ms audio sample_rate).length - 1) hn).1
      (by omega)
    have heq : ((frame_generator frame_duration_ms audio sample_rate).length - 1) *
        frameSize frame_duration_ms sample_rate +
        frameSize frame_duration_ms sample_rate =
        (frame_generator frame_duration_ms audio sample_rate).length *
        frameSize frame_duration_ms sample_rate := by
      rw [Nat.sub_one_mul]
      have := Nat.le_mul_of_pos_left
        (frameSize frame_duration_ms sample_rate) h1
      omega
    omega

/-- C7: the Framer's frames have uniform duration `n / sample_rate / 2`,
timestamps `k · duration` strictly increasing from `0` with no temporal
overlap, and their bytes concatenate to the prefix of the buffer of
length `length · n` (a multiple of the per-frame byte size `n`). -/
theorem frame_generator_coverage (frame_duration_ms sample_rate : ℕ)
    (audio : List ℕ) (hn : 0 < frameSize frame_duration_ms sample_rate) :
    (∀ (k : ℕ) (f : Frame),
      (frame_generator frame_duration_ms audio sample_rate)[k]? = some f →
        f.timestamp = (k : ℚ) *
          frameDuration (frameSize frame_duration_ms sample_rate) sample_rate ∧
        f.duration =
          frameDuration (frameSize frame_duration_ms sample_rate) sample_rate) ∧
    ((frame_generator frame_duration_ms audio sample_rate).map Frame.duration =
      List.replicate (frame_generator frame_duration_ms audio sample_rate).length
        (frameDuration (frameSize frame_duration_ms sample_rate) sample_rate)) ∧
    0 < frameDuration (frameSize frame_duration_ms sample_rate) sample_rate ∧
    (frame_generator frame_duration_ms audio sample_rate).Pairwise
      (fun f g => f.timestamp < g.timestamp) ∧
    (frame_generator frame_duration_ms audio sample_rate).Pairwise
      (fun f g => f.timestamp + f.duration ≤ g.timestamp) ∧
    ((frame_generator frame_duration_ms audio sample_rate).map Frame.bytes).flatten =
      audio.take ((frame_generator frame_duration_ms audio sample_rate).length *
        frameSize frame_duration_ms sample_rate) ∧
    (frame_generator frame_duration_ms audio sample_rate).length *
      frameSize frame_duration_ms sample_rate ≤ audio.length := by
  have hdur : 0 < frameDuration (frameSize frame_duration_ms sample_rate) sample_rate :=
    frameDuration_pos hn (frameSize_pos_sample_rate hn)
  refine ⟨?_, ?_, hdur, ?_, ?_, ?_, ?_⟩
  · intro k f hf
    rw [frame_generator_getElem _ _ _ _ hn] at hf
    by_cases h : k * frameSize frame_duration_ms sample_rate +
        frameSize frame_duration_ms sample_rate < audio.length
    · rw [if_pos h] at hf
      cases hf
      exact ⟨rfl, rfl⟩
    · rw [if_neg h] at hf
      cases hf
  · rw [List.eq_replicate_iff]
    refine ⟨by simp, ?_⟩
    intro b hb
    rw [List.mem_map] at hb
    obtain ⟨f, hf, rfl⟩ := hb
    rw [List.mem_iff_getElem] at hf
    obtain ⟨j, hj, rfl⟩ := hf
    rw [frame_generator_getElem_eq _ _ _ _ hn hj]
  · rw [List.pairwise_iff_getElem]
    intro i j hi hj hij
    rw [frame_generator_getElem_eq _ _ _ _ hn hi,
      frame_generator_getElem_eq _ _ _ _ hn hj]
    have : (i : ℚ) < (j : ℚ) := by exact_mod_cast hij
    exact mul_lt_mul_of_pos_right this hdur
  · rw [List.pairwise_iff_getElem]
    intro i j hi hj hij
    rw [frame_generator_getElem_eq _ _ _ _ hn hi,
      frame_generator_getElem_eq _ _ _ _ hn hj]
    show (i : ℚ) * _ + _ ≤ (j : ℚ) * _
    have h2 : ((i : ℚ) + 1) *
        frameDuration (frameSize frame_duration_ms sample_rate) sample_rate ≤
        (j : ℚ) * frameDuration (frameSize frame_duration_ms sample_rate) sample_rate := by
      apply mul_le_mul_of_nonneg_right _ (le_of_lt hdur)
      exact_mod_cast hij
    linarith
  · have := frameLoop_flatten (frameSize frame_duration_ms sample_rate) audio
      (frameDuration (frameSize frame_duration_ms sample_rate) sample_rate)
      audio.length 0 0
      (by have := Nat.le_mul_of_pos_left audio.length hn; omega)
    simpa [frame_generator] using this
  · exact frame_generator_length_mul_le frame_duration_ms sample_rate audio hn

/-- C7 witness: on the 33-byte buffer with `n = 16` the concatenation of
the frames' bytes is the 32-byte prefix. -/
theorem frame_generator_coverage_witness :
    0 < frameSize 1 8000 ∧
    ((frame_generator 1 witAudio 8000).map Frame.bytes).flatten =
      witAudio.take ((frame_generator 1 witAudio 8000).length * frameSize 1 8000) :=
  ⟨by decide, (frame_generator_coverage 1 8000 witAudio (by decide)).2.2.2.2.2.1⟩

/-! The Segment Collector: basic loop lemmas. -/

/-- Splitting the collector loop over a concatenation of inputs. -/
theorem vadRun_append (sample_rate W : ℕ) (vad : List ℕ → ℕ → Bool)
    (l₁ l₂ : List Frame) (st : VadState) :
    vadRun sample_rate W vad st (l₁ ++ l₂) =
      ((vadRun sample_rate W vad st l₁).1 ++
        (vadRun sample_rate W vad (vadRun sample_rate W vad st l₁).2 l₂).1,
       (vadRun sample_rate W vad (vadRun sample_rate W vad st l₁).2 l₂).2) := by
  induction l₁ generalizing st with
  | nil => simp [vadRun]
  | cons f rest ih =>
    simp only [List.cons_append, vadRun, List.append_eq, ih, List.append_assoc]

/-- Appending to a deque holding the last `W` elements of `l` yields the
last `W` elements of `l ++ [x]`. -/
theorem dequeAppend_lastN (W : ℕ) (l : List (Frame × Bool))
    (x : Frame × Bool) :
    dequeAppend W (lastN W l) x = lastN W (l ++ [x]) := by
  unfold dequeAppend lastN
  rcases Nat.lt_or_ge l.length W with hcase | hcase
  · rw [show l.length - W = 0 by omega, List.drop_zero, if_neg (by omega)]
    rw [show (l ++ [x]).length - W = 0 by simp; omega, List.drop_zero]
  · have hlen : (l.drop (l.length - W)).length = W := by
      rw [List.length_drop]
      omega
    rw [if_pos (by rw [hlen]; omega), hlen,
      show W + 1 - W = 1 by omega]
    rcases Nat.eq_zero_or_pos W with hW | hW
    · subst hW
      rw [Nat.sub_zero, List.drop_length, List.nil_append,
        show (l ++ [x]).length - 0 = l.length + 1 by simp]
      rw [List.drop_eq_nil_of_le (by simp), List.drop_eq_nil_of_le (by simp)]
    · rw [List.drop_append_of_le_length (by omega : 1 ≤ (l.drop (l.length - W)).length),
        List.drop_drop,
        show l.length - W + 1 = (l ++ [x]).length - W by simp; omega,
        List.drop_append_of_le_length (by simp; omega)]

/-- `votesOf` distributes over append. -/
theorem votesOf_append (sample_rate : ℕ) (vad : List ℕ → ℕ → Bool)
    (l₁ l₂ : List Frame) :
    votesOf sample_rate vad (l₁ ++ l₂) =
      votesOf sample_rate vad l₁ ++ votesOf sample_rate vad l₂ :=
  List.map_append _ _ _

/-- The frames of the (frame, vote) pairs are the frames themselves. -/
theorem votesOf_map_fst (sample_rate : ℕ) (vad : List ℕ → ℕ → Bool)
    (l : List Frame) :
    (votesOf sample_rate vad l).map Prod.fst = l := by
  simp [votesOf, Function.comp_def]

/-- `take (k+1)` splits off the element at `k`. -/
theorem take_succ_of_lt {α : Type} (l : List α) (k : ℕ) (hk : k < l.length) :
    l.take (k + 1) = l.take k ++ [l[k]] := by
  rw [List.take_succ, List.getElem?_eq_getElem hk]
  rfl

/-- While the trigger condition has not yet fired, the collector stays
`NOT_TRIGGERED` with an empty segment list, the ring buffer holds the
last `W` (frame, vote) pairs seen, and nothing has been yielded. -/
theorem notTriggered_invariant (sample_rate W : ℕ) (vad : List ℕ → ℕ → Bool)
    (frames : List Frame) :
    ∀ k, k ≤ frames.length →
      (∀ j, j < k → trigAt sample_rate W vad frames j = false) →
      stateAfter sample_rate W vad frames k =
        ⟨false, lastN W (votesOf sample_rate vad (frames.take k)), []⟩ ∧
      outputsAfter sample_rate W vad frames k = [] := by
  intro k
  induction k with
  | zero =>
    intro _ _
    constructor
    · simp [stateAfter, vadRun, initState, votesOf, lastN]
    · simp [outputsAfter, vadRun]
  | succ k ih =>
    intro hk hbefore
    have hklt : k < frames.length := by omega
    obtain ⟨ihs, iho⟩ := ih (by omega) (fun j hj => hbefore j (by omega))
    have hsplit := take_succ_of_lt frames k hklt
    have happ := vadRun_append sample_rate W vad (frames.take k) [frames[k]]
      initState
    have hstep : vadRun sample_rate W vad
        (vadRun sample_rate W vad initState (frames.take k)).2 [frames[k]] =
        (vadStepCore W (stateAfter sample_rate W vad frames k) frames[k]
            (vad frames[k].bytes sample_rate) |>.2.toList,
         vadStepCore W (stateAfter sample_rate W vad frames k) frames[k]
            (vad frames[k].bytes sample_rate) |>.1) := by
      simp [vadRun, stateAfter]
    have hcore : vadStepCore W (stateAfter sample_rate W vad frames k) frames[k]
        (vad frames[k].bytes sample_rate) =
        (⟨false, lastN W (votesOf sample_rate vad (frames.take (k + 1))), []⟩,
         none) := by
      rw [ihs]
      unfold vadStepCore
      rw [if_pos rfl]
      simp only
      rw [dequeAppend_lastN]
      rw [show votesOf sample_rate vad (frames.take k) ++
          [(frames[k], vad frames[k].bytes sample_rate)] =
          votesOf sample_rate vad (frames.take (k + 1)) by
        rw [hsplit, votesOf_append]; rfl]
      have hcond : exceedsThreshold
          (numVoiced (lastN W (votesOf sample_rate vad (frames.take (k + 1))))) W =
          false := hbefore k (by omega)
      rw [hcond]
      simp
    constructor
    · unfold stateAfter
      rw [hsplit, happ, hstep, hcore, ← hsplit]
    · unfold outputsAfter at iho ⊢
      rw [hsplit, happ, hstep, hcore]
      simp [iho]

/-- Processing one more frame applies one loop iteration to the state
and appends that iteration's yield (if any) to the outputs. -/
theorem stateAfter_succ (sample_rate W : ℕ) (vad : List ℕ → ℕ → Bool)
    (frames : List Frame) (i : ℕ) (hi : i < frames.length) :
    stateAfter sample_rate W vad frames (i + 1) =
      (vadStepCore W (stateAfter sample_rate W vad frames i) frames[i]
        (vad frames[i].bytes sample_rate)).1 ∧
    outputsAfter sample_rate W vad frames (i + 1) =
      outputsAfter sample_rate W vad frames i ++
        (vadStepCore W (stateAfter sample_rate W vad frames i) frames[i]
          (vad frames[i].bytes sample_rate)).2.toList := by
  constructor
  · unfold stateAfter
    rw [take_succ_of_lt frames i hi, vadRun_append]
    simp [vadRun]
  · unfold outputsAfter stateAfter
    rw [take_succ_of_lt frames i hi, vadRun_append]
    simp [vadRun]

/-- C1: while `NOT_TRIGGERED` the collector pushes (frame, vote) pairs
onto the capacity-`W` ring buffer (which therefore holds the last `W`
pairs seen) and yields nothing; it flips to `TRIGGERED` exactly on the
first frame whose window exceeds the `0.9·W` voiced threshold — never
before — and on that transition the buffered frames move, in order, into
the segment list and the ring buffer is cleared. -/
theorem vad_collector_trigger_transition (sample_rate W : ℕ)
    (vad : List ℕ → ℕ → Bool) (frames : List Frame) (i : ℕ)
    (hi : i < frames.length)
    (hbefore : ∀ j, j < i → trigAt sample_rate W vad frames j = false) :
    (∀ k, k ≤ i →
      stateAfter sample_rate W vad frames k =
        ⟨false, lastN W (votesOf sample_rate vad (frames.take k)), []⟩ ∧
      outputsAfter sample_rate W vad frames k = []) ∧
    stateAfter sample_rate W vad frames (i + 1) =
      (if trigAt sample_rate W vad frames i = true
       then ⟨true, [],
         (lastN W (votesOf sample_rate vad (frames.take (i + 1)))).map Prod.fst⟩
       else ⟨false, lastN W (votesOf sample_rate vad (frames.take (i + 1))), []⟩) ∧
    outputsAfter sample_rate W vad frames (i + 1) = [] := by
  have hinv : ∀ k, k ≤ i →
      stateAfter sample_rate W vad frames k =
        ⟨false, lastN W (votesOf sample_rate vad (frames.take k)), []⟩ ∧
      outputsAfter sample_rate W vad frames k = [] := by
    intro k hk
    exact notTriggered_invariant sample_rate W vad frames k (by omega)
      (fun j hj => hbefore j (by omega))
  refine ⟨hinv, ?_, ?_⟩
  all_goals
    obtain ⟨hs, ho⟩ := stateAfter_succ sample_rate W vad frames i hi
    obtain ⟨ihs, iho⟩ := hinv i (le_refl i)
    have hwin : dequeAppend W
        (lastN W (votesOf sample_rate vad (frames.take i)))
        (frames[i], vad frames[i].bytes sample_rate) =
        lastN W (votesOf sample_rate vad (frames.take (i + 1))) := by
      rw [dequeAppend_lastN,
        show votesOf sample_rate vad (frames.take i) ++
            [(frames[i], vad frames[i].bytes sample_rate)] =
          votesOf sample_rate vad (frames.take (i + 1)) by
            rw [take_succ_of_lt frames i hi, votesOf_append]; rfl]
    have hcore : vadStepCore W (stateAfter sample_rate W vad frames i) frames[i]
        (vad frames[i].bytes sample_rate) =
        (if trigAt sample_rate W vad frames i = true
         then (⟨true, [],
           (lastN W (votesOf sample_rate vad (frames.take (i + 1)))).map Prod.fst⟩,
           none)
         else (⟨false, lastN W (votesOf sample_rate vad (frames.take (i + 1))), []⟩,
           none)) := by
      rw [ihs]
      unfold vadStepCore
      rw [if_pos rfl]
      simp only
      rw [hwin]
      by_cases hc : trigAt sample_rate W vad frames i = true
      · have hcE : exceedsThreshold
            (numVoiced (lastN W (votesOf sample_rate vad (frames.take (i + 1))))) W =
            true := hc
        rw [hcE, if_pos hc]
        simp
      · have hcE : exceedsThreshold
            (numVoiced (lastN W (votesOf sample_rate vad (frames.take (i + 1))))) W =
            false := Bool.eq_false_iff.2 hc
        rw [hcE, if_neg hc]
        simp
  · rw [hs, hcore]
    by_cases hc : trigAt sample_rate W vad frames i = true
    · rw [if_pos hc, if_pos hc]
    · rw [if_neg hc, if_neg hc]
  · rw [ho, hcore, iho]
    by_cases hc : trigAt sample_rate W vad frames i = true
    · rw [if_pos hc]
      rfl
    · rw [if_neg hc]
      rfl

/-- C1 witness: a single always-voiced frame with `W = 1`: the collector
triggers on frame 0 and has yielded nothing after it. -/
theorem vad_collector_trigger_transition_witness :
    (0 : ℕ) < ([⟨[1], 0, 0⟩] : List Frame).length ∧
    stateAfter 8000 1 alwaysVoiced [⟨[1], 0, 0⟩] 1 =
      (if trigAt 8000 1 alwaysVoiced [⟨[1], 0, 0⟩] 0 = true
       then ⟨true, [],
         (lastN 1 (votesOf 8000 alwaysVoiced (([⟨[1], 0, 0⟩] : List Frame).take 1))).map Prod.fst⟩
       else ⟨false, lastN 1 (votesOf 8000 alwaysVoiced (([⟨[1], 0, 0⟩] : List Frame).take 1)), []⟩) :=
  ⟨by decide,
    (vad_collector_trigger_transition 8000 1 alwaysVoiced [⟨[1], 0, 0⟩] 0
      (by decide) (fun j hj => absurd hj (Nat.not_lt_zero j))).2.1⟩

/-- C2: while `TRIGGERED` the collector appends the arriving frame to
the segment list and pushes its (frame, vote) pair onto the ring buffer;
exactly when the unvoiced votes in the buffer exceed `0.9·W` it flips to
`NOT_TRIGGERED`, yields the concatenated bytes of the segment list, and
clears both the buffer and the list — otherwise nothing is yielded and
the state keeps the grown buffer and list. -/
theorem vad_collector_detrigger_transition (sample_rate W : ℕ)
    (vad : List ℕ → ℕ → Bool) (frames : List Frame) (i : ℕ)
    (hi : i < frames.length)
    (htrig : (stateAfter sample_rate W vad frames i).triggered = true) :
    (exceedsThreshold (numUnvoiced (dequeAppend W
          (stateAfter sample_rate W vad frames i).ring_buffer
          (frames[i], vad frames[i].bytes sample_rate))) W = true →
      stateAfter sample_rate W vad frames (i + 1) = ⟨false, [], []⟩ ∧
      outputsAfter sample_rate W vad frames (i + 1) =
        outputsAfter sample_rate W vad frames i ++
          [segmentBytes ((stateAfter sample_rate W vad frames i).voiced_frames ++
            [frames[i]])]) ∧
    (exceedsThreshold (numUnvoiced (dequeAppend W
          (stateAfter sample_rate W vad frames i).ring_buffer
          (frames[i], vad frames[i].bytes sample_rate))) W = false →
      stateAfter sample_rate W vad frames (i + 1) =
        ⟨true, dequeAppend W (stateAfter sample_rate W vad frames i).ring_buffer
            (frames[i], vad frames[i].bytes sample_rate),
          (stateAfter sample_rate W vad frames i).voiced_frames ++ [frames[i]]⟩ ∧
      outputsAfter sample_rate W vad frames (i + 1) =
        outputsAfter sample_rate W vad frames i) := by
  obtain ⟨hs, ho⟩ := stateAfter_succ sample_rate W vad frames i hi
  constructor
  · intro hc
    have hcore : vadStepCore W (stateAfter sample_rate W vad frames i) frames[i]
        (vad frames[i].bytes sample_rate) =
        (⟨false, [], []⟩,
         some (segmentBytes ((stateAfter sample_rate W vad frames i).voiced_frames ++
           [frames[i]]))) := by
      unfold vadStepCore
      rw [if_neg (by rw [htrig]; simp)]
      simp only
      rw [hc]
      simp
    rw [hs, ho, hcore]
    exact ⟨rfl, rfl⟩
  · intro hc
    have hcore : vadStepCore W (stateAfter sample_rate W vad frames i) frames[i]
        (vad frames[i].bytes sample_rate) =
        (⟨true, dequeAppend W (stateAfter sample_rate W vad frames i).ring_buffer
            (frames[i], vad frames[i].bytes sample_rate),
          (stateAfter sample_rate W vad frames i).voiced_frames ++ [frames[i]]⟩,
         none) := by
      unfold vadStepCore
      rw [if_neg (by rw [htrig]; simp)]
      simp only
      rw [hc]
      simp
    rw [hs, ho, hcore]
    exact ⟨rfl, by simp⟩

/-- C2 witness: with `W = 1` and an always-voiced classifier the
collector is `TRIGGERED` after frame 0 and stays so through frame 1,
appending it to the segment list without yielding. -/
theorem vad_collector_detrigger_transition_witness :
    ((1 : ℕ) < ([⟨[1], 0, 0⟩, ⟨[2], 0, 0⟩] : List Frame).length ∧
      (stateAfter 8000 1 alwaysVoiced [⟨[1], 0, 0⟩, ⟨[2], 0, 0⟩] 1).triggered = true ∧
      exceedsThreshold (numUnvoiced (dequeAppend 1
        (stateAfter 8000 1 alwaysVoiced [⟨[1], 0, 0⟩, ⟨[2], 0, 0⟩] 1).ring_buffer
        (([⟨[1], 0, 0⟩, ⟨[2], 0, 0⟩] : List Frame)[1],
          alwaysVoiced ([⟨[1], 0, 0⟩, ⟨[2], 0, 0⟩] : List Frame)[1].bytes 8000))) 1 =
        false) ∧
    stateAfter 8000 1 alwaysVoiced [⟨[1], 0, 0⟩, ⟨[2], 0, 0⟩] 2 =
      ⟨true, dequeAppend 1
          (stateAfter 8000 1 alwaysVoiced [⟨[1], 0, 0⟩, ⟨[2], 0, 0⟩] 1).ring_buffer
          (([⟨[1], 0, 0⟩, ⟨[2], 0, 0⟩] : List Frame)[1],
            alwaysVoiced ([⟨[1], 0, 0⟩, ⟨[2], 0, 0⟩] : List Frame)[1].bytes 8000),
        (stateAfter 8000 1 alwaysVoiced [⟨[1], 0, 0⟩, ⟨[2], 0, 0⟩] 1).voiced_frames ++
          [([⟨[1], 0, 0⟩, ⟨[2], 0, 0⟩] : List Frame)[1]]⟩ ∧
    outputsAfter 8000 1 alwaysVoiced [⟨[1], 0, 0⟩, ⟨[2], 0, 0⟩] 2 =
      outputsAfter 8000 1 alwaysVoiced [⟨[1], 0, 0⟩, ⟨[2], 0, 0⟩] 1 :=
  ⟨⟨by decide, by decide, by decide⟩,
    (vad_collector_detrigger_transition 8000 1 alwaysVoiced
      [⟨[1], 0, 0⟩, ⟨[2], 0, 0⟩] 1 (by decide) (by decide)).2 (by decide)⟩

/-- C4: the collector's output is the loop's yields followed by one
final flush of the segment list exactly when that list is non-empty —
the `triggered` flag plays no role in the flush — and empty input
produces empty output. -/
theorem vad_collector_final_flush
    (sample_rate frame_duration_ms padding_duration_ms : ℕ)
    (vad : List ℕ → ℕ → Bool) (frames : List Frame) :
    vad_collector sample_rate frame_duration_ms padding_duration_ms vad [] = [] ∧
    ((finalState sample_rate
        (numPaddingFrames padding_duration_ms frame_duration_ms) vad
        frames).voiced_frames = [] →
      vad_collector sample_rate frame_duration_ms padding_duration_ms vad frames =
        runOutputs sample_rate
          (numPaddingFrames padding_duration_ms frame_duration_ms) vad frames) ∧
    ((finalState sample_rate
        (numPaddingFrames padding_duration_ms frame_duration_ms) vad
        frames).voiced_frames ≠ [] →
      vad_collector sample_rate frame_duration_ms padding_duration_ms vad frames =
        runOutputs sample_rate
          (numPaddingFrames padding_duration_ms frame_duration_ms) vad frames ++
          [segmentBytes (finalState sample_rate
            (numPaddingFrames padding_duration_ms frame_duration_ms) vad
            frames).voiced_frames]) := by
  have hre : vad_collector sample_rate frame_duration_ms padding_duration_ms
      vad frames =
      if (finalState sample_rate
          (numPaddingFrames padding_duration_ms frame_duration_ms) vad
          frames).voiced_frames.isEmpty
      then runOutputs sample_rate
        (numPaddingFrames padding_duration_ms frame_duration_ms) vad frames
      else runOutputs sample_rate
        (numPaddingFrames padding_duration_ms frame_duration_ms) vad frames ++
        [segmentBytes (finalState sample_rate
          (numPaddingFrames padding_duration_ms frame_duration_ms) vad
          frames).voiced_frames] := rfl
  refine ⟨?_, ?_, ?_⟩
  · simp [vad_collector, vadRun, initState]
  · intro h
    rw [hre, if_pos (by rw [List.isEmpty_iff]; exact h)]
  · intro h
    rw [hre, if_neg (by
      intro habs
      exact h (List.isEmpty_iff.1 habs))]

/-- C4 witness: a single always-voiced frame with `W = 1` leaves a
non-empty segment list, so the collector output is the loop yields plus
one flushed segment. -/
theorem vad_collector_final_flush_witness :
    vad_collector 8000 10 10 alwaysVoiced [⟨[1], 0, 0⟩] =
      runOutputs 8000 (numPaddingFrames 10 10) alwaysVoiced [⟨[1], 0, 0⟩] ++
        [segmentBytes (finalState 8000 (numPaddingFrames 10 10) alwaysVoiced
          [⟨[1], 0, 0⟩]).voiced_frames] :=
  (vad_collector_final_flush 8000 10 10 alwaysVoiced [⟨[1], 0, 0⟩]).2.2 (by decide)

/-- With capacity 10 the threshold fires exactly at a full count of 10. -/
theorem exceedsThreshold_ten_iff (count : ℕ) :
    exceedsThreshold count 10 = true ↔ 10 ≤ count := by
  unfold exceedsThreshold
  rw [decide_eq_true_iff]
  omega

/-- C5: the trigger/detrigger comparison is the strict inequality
`count > 0.9·W`, not a rounded integer threshold: a count of 9 does not
exceed `0.9·10`, so entering `TRIGGERED` with `W = 10` requires all 10
votes voiced (`voiced ≥ 10`) and, symmetrically, leaving it requires all
10 votes unvoiced. -/
theorem threshold_strict_semantics :
    (¬ thresholdSpec 9 10) ∧
    (∀ count maxlen : ℕ,
      exceedsThreshold count maxlen = true ↔ thresholdSpec count maxlen) ∧
    (∀ count : ℕ, exceedsThreshold count 10 = true ↔ 10 ≤ count) ∧
    (∀ (st : VadState) (f : Frame) (v : Bool), st.triggered = false →
      ((vadStepCore 10 st f v).1.triggered = true ↔
        10 ≤ numVoiced (dequeAppend 10 st.ring_buffer (f, v)))) ∧
    (∀ (st : VadState) (f : Frame) (v : Bool), st.triggered = true →
      ((vadStepCore 10 st f v).1.triggered = false ↔
        10 ≤ numUnvoiced (dequeAppend 10 st.ring_buffer (f, v)))) := by
  refine ⟨?_, exceedsThreshold_iff, exceedsThreshold_ten_iff, ?_, ?_⟩
  · unfold thresholdSpec
    norm_num
  · intro st f v h
    unfold vadStepCore
    rw [if_pos (by rw [h])]
    simp only
    by_cases hc : exceedsThreshold
        (numVoiced (dequeAppend 10 st.ring_buffer (f, v))) 10 = true
    · rw [hc]
      simp only [if_true]
      simp only [true_iff]
      exact (exceedsThreshold_ten_iff _).1 hc
    · rw [Bool.eq_false_iff.2 hc]
      simp only [Bool.false_eq_true, if_false]
      constructor
      · intro habs
        exact absurd habs (by simp)
      · intro hle
        exact absurd ((exceedsThreshold_ten_iff _).2 hle) hc
  · intro st f v h
    unfold vadStepCore
    rw [if_neg (by rw [h]; simp)]
    simp only
    by_cases hc : exceedsThreshold
        (numUnvoiced (dequeAppend 10 st.ring_buffer (f, v))) 10 = true
    · rw [hc]
      simp only [if_true]
      simp only [true_iff]
      exact (exceedsThreshold_ten_iff _).1 hc
    · rw [Bool.eq_false_iff.2 hc]
      simp only [Bool.false_eq_true, if_false]
      constructor
      · intro habs
        exact absurd habs (by simp)
      · intro hle
        exact absurd ((exceedsThreshold_ten_iff _).2 hle) hc

/-- C5 witness: from the initial (untriggered) state with `W = 10`,
one voiced vote triggers exactly when the buffer holds 10 voiced
votes (here it does not). -/
theorem threshold_strict_semantics_witness :
    (vadStepCore 10 initState emptyFrame true).1.triggered = true ↔
      10 ≤ numVoiced (dequeAppend 10 initState.ring_buffer (emptyFrame, true)) :=
  threshold_strict_semantics.2.2.2.1 initState emptyFrame true rfl

/-- C6: in the spec's concrete scenario (16 kHz, 30 ms frames so
`n = 960`, 300 ms padding so `W = 10`, votes `[F]*5 ++ [T]*15 ++ [F]*5`)
the machine does not trigger before frame 14, triggers exactly on frame
index 14, and the whole input yields exactly one segment — the bytes of
frames 5..24, emitted by the end-of-input flush since the trailing five
unvoiced votes never exceed the detrigger threshold. -/
theorem scenario_run :
    frameSize 30 16000 = 960 ∧
    numPaddingFrames 300 30 = 10 ∧
    (∀ k, k < 15 →
      (stateAfter 16000 10 scenarioVad scenarioFrames k).triggered = false) ∧
    (stateAfter 16000 10 scenarioVad scenarioFrames 15).triggered = true ∧
    trigAt 16000 10 scenarioVad scenarioFrames 14 = true ∧
    (∀ j, j < 14 → trigAt 16000 10 scenarioVad scenarioFrames j = false) ∧
    vad_collector 16000 30 300 scenarioVad scenarioFrames =
      [segmentBytes (scenarioFrames.drop 5)] := by
  refine ⟨by decide, by decide, by decide, by decide, by decide, by decide, by decide⟩

/-- C6 witness: the machine is still untriggered after the first five
(unvoiced) frames. -/
theorem scenario_run_witness :
    (stateAfter 16000 10 scenarioVad scenarioFrames 5).triggered = false :=
  scenario_run.2.2.1 5 (by decide)

/-- The collector loop only consults the classifier on the frames of its
input. -/
theorem vadRun_congr (sample_rate W : ℕ) (vad₁ vad₂ : List ℕ → ℕ → Bool)
    (frames : List Frame)
    (h : ∀ f ∈ frames, vad₁ f.bytes sample_rate = vad₂ f.bytes sample_rate) :
    ∀ st, vadRun sample_rate W vad₁ st frames =
      vadRun sample_rate W vad₂ st frames := by
  induction frames with
  | nil => intro st; rfl
  | cons f rest ih =>
    intro st
    simp only [vadRun]
    rw [h f (List.mem_cons_self f rest),
      ih (fun g hg => h g (List.mem_cons_of_mem f hg))]

/-- C9: the collector is deterministic with no hidden state: two
collector instances fed the same frames and the same per-frame votes
produce byte-identical segment sequences (even for distinct classifier
functions, as long as they agree on the frames actually seen). -/
theorem vad_collector_deterministic
    (sample_rate frame_duration_ms padding_duration_ms : ℕ)
    (vad₁ vad₂ : List ℕ → ℕ → Bool) (frames : List Frame)
    (h : ∀ f ∈ frames, vad₁ f.bytes sample_rate = vad₂ f.bytes sample_rate) :
    vad_collector sample_rate frame_duration_ms padding_duration_ms vad₁ frames =
      vad_collector sample_rate frame_duration_ms padding_duration_ms vad₂ frames := by
  unfold vad_collector
  rw [vadRun_congr sample_rate _ vad₁ vad₂ frames h initState]

/-- C9 witness: two syntactically different classifiers that agree on
the one frame produce identical output. -/
theorem vad_collector_deterministic_witness :
    vad_collector 8000 10 10 alwaysVoiced [⟨[1], 0, 0⟩] =
      vad_collector 8000 10 10 (fun b _ => !b.isEmpty) [⟨[1], 0, 0⟩] :=
  vad_collector_deterministic 8000 10 10 alwaysVoiced (fun b _ => !b.isEmpty)
    [⟨[1], 0, 0⟩] (by decide)

/-- If the classifier first fails on frame `i`, the loop with the
fallible classifier produces exactly the yields of the total-classifier
loop on the first `i` frames, then the error. -/
theorem vadRunE_error {ε : Type} (sample_rate W : ℕ)
    (vadE : List ℕ → ℕ → Except ε Bool) (vad : List ℕ → ℕ → Bool) (e : ε) :
    ∀ (frames : List Frame) (i : ℕ) (st : VadState) (hi : i < frames.length),
      (∀ j (hj : j < frames.length), j < i →
        vadE (frames.get ⟨j, hj⟩).bytes sample_rate =
          Except.ok (vad (frames.get ⟨j, hj⟩).bytes sample_rate)) →
      vadE (frames.get ⟨i, hi⟩).bytes sample_rate = Except.error e →
      vadRunE sample_rate W vadE st frames =
        ((vadRun sample_rate W vad st (frames.take i)).1, Except.error e) := by
  intro frames
  induction frames with
  | nil =>
    intro i st hi
    exact absurd hi (by simp)
  | cons f rest ih =>
    intro i st hi hok herr
    cases i with
    | zero =>
      simp only [List.get] at herr
      simp only [vadRunE, herr]
      simp [vadRun]
    | succ i' =>
      have h0 : vadE f.bytes sample_rate =
          Except.ok (vad f.bytes sample_rate) := by
        have := hok 0 (by simp) (by omega)
        simpa using this
      simp only [vadRunE, h0]
      have hrest := ih i' (vadStepCore W st f (vad f.bytes sample_rate)).1
        (by simpa using Nat.lt_of_succ_lt_succ hi)
        (fun j hj hji => by
          have := hok (j + 1) (by simpa using Nat.succ_lt_succ hj)
            (Nat.succ_lt_succ hji)
          simpa using this)
        (by simpa using herr)
      rw [hrest]
      simp [vadRun, List.take_succ_cons]

/-- C8: a classifier error on frame `i` propagates to the collector's
caller: the output holds exactly the segments yielded before frame `i`
was processed (those of the error-free run on the first `i` frames),
the error is reported, and no end-of-input flush happens. -/
theorem vad_collector_classifier_error {ε : Type}
    (sample_rate frame_duration_ms padding_duration_ms : ℕ)
    (vadE : List ℕ → ℕ → Except ε Bool) (vad : List ℕ → ℕ → Bool)
    (frames : List Frame) (i : ℕ) (e : ε) (hi : i < frames.length)
    (hok : ∀ j (hj : j < frames.length), j < i →
      vadE (frames.get ⟨j, hj⟩).bytes sample_rate =
        Except.ok (vad (frames.get ⟨j, hj⟩).bytes sample_rate))
    (herr : vadE (frames.get ⟨i, hi⟩).bytes sample_rate = Except.error e) :
    vad_collectorE sample_rate frame_duration_ms padding_duration_ms vadE frames =
      (runOutputs sample_rate
        (numPaddingFrames padding_duration_ms frame_duration_ms) vad
        (frames.take i), some e) := by
  unfold vad_collectorE
  rw [vadRunE_error sample_rate
    (numPaddingFrames padding_duration_ms frame_duration_ms) vadE vad e frames
    i initState hi hok herr]
  rfl

/-- C8 witness: the classifier succeeds on frame 0 and raises error `7`
on frame 1; the collector reports the error with the segments of the
error-free run on the first frame, without flushing. -/
theorem vad_collector_classifier_error_witness :
    vad_collectorE 8000 10 10 errVad [⟨[0], 0, 0⟩, ⟨[1], 0, 0⟩] =
      (runOutputs 8000 (numPaddingFrames 10 10) alwaysVoiced
        (([⟨[0], 0, 0⟩, ⟨[1], 0, 0⟩] : List Frame).take 1), some 7) :=
  vad_collector_classifier_error 8000 10 10 errVad alwaysVoiced
    [⟨[0], 0, 0⟩, ⟨[1], 0, 0⟩] 1 7 (by decide)
    (fun j hj hji => by
      have hj0 : j = 0 := by omega
      subst hj0
      rfl)
    rfl

/-- A segment of a list is a segment of any extension on the right. -/
theorem isSegmentOf_append_right (B : List ℕ) (l₁ l₂ : List Frame)
    (h : isSegmentOf B l₁) : isSegmentOf B (l₁ ++ l₂) := by
  obtain ⟨a, b, hab, hb, hB⟩ := h
  refine ⟨a, b, hab, by simp; omega, ?_⟩
  rw [hB]
  rw [List.drop_append_of_le_length (by omega),
    List.take_append_of_le_length (by rw [List.length_drop]; omega)]

/-- Appending to a suffix of `l` under the capacity bound yields a
suffix of `l ++ [x]`, with the suffix index bounded by the new length. -/
theorem dequeAppend_drop_suffix (W : ℕ) (l : List (Frame × Bool)) (c : ℕ)
    (x : Frame × Bool) (hc : c ≤ l.length) :
    ∃ c', c' ≤ l.length + 1 ∧
      dequeAppend W (l.drop c) x = (l ++ [x]).drop c' := by
  unfold dequeAppend
  by_cases h : W < (l.drop c).length + 1
  · refine ⟨c + ((l.drop c).length + 1 - W), ?_, ?_⟩
    · rw [List.length_drop]
      omega
    · rw [if_pos h, ← List.drop_drop, List.drop_append_of_le_length hc]
  · refine ⟨c, by omega, ?_⟩
    rw [if_neg h, List.drop_append_of_le_length hc]

/-- The branch structure of one collector iteration, written out. -/
theorem vadStepCore_eq (W : ℕ) (st : VadState) (f : Frame) (v : Bool) :
    vadStepCore W st f v =
      if st.triggered = false then
        (if exceedsThreshold
            (numVoiced (dequeAppend W st.ring_buffer (f, v))) W = true
         then (⟨true, [],
           st.voiced_frames ++ (dequeAppend W st.ring_buffer (f, v)).map Prod.fst⟩,
           none)
         else (⟨false, dequeAppend W st.ring_buffer (f, v), st.voiced_frames⟩,
           none))
      else
        (if exceedsThreshold
            (numUnvoiced (dequeAppend W st.ring_buffer (f, v))) W = true
         then (⟨false, [], []⟩, some (segmentBytes (st.voiced_frames ++ [f])))
         else (⟨true, dequeAppend W st.ring_buffer (f, v),
           st.voiced_frames ++ [f]⟩, none)) := rfl

/-- One collector iteration preserves the structural invariant, and any
segment it yields is a non-empty consecutive run of the frames processed
so far. -/
theorem vadStepCore_inv (sample_rate W : ℕ) (vad : List ℕ → ℕ → Bool)
    (processed : List Frame) (f : Frame) (st : VadState)
    (hinv : SegInv sample_rate vad processed st) :
    SegInv sample_rate vad (processed ++ [f])
      (vadStepCore W st f (vad f.bytes sample_rate)).1 ∧
    ∀ B ∈ (vadStepCore W st f (vad f.bytes sample_rate)).2.toList,
      isSegmentOf B (processed ++ [f]) := by
  obtain ⟨hempty, ⟨a, ha, hvf⟩, ⟨c, hc, hrb⟩⟩ := hinv
  have hcs : c ≤ (votesOf sample_rate vad processed).length := by
    rw [votesOf, List.length_map]
    exact hc
  obtain ⟨c', hc', hrb'⟩ := dequeAppend_drop_suffix W
    (votesOf sample_rate vad processed) c (f, vad f.bytes sample_rate) hcs
  have hvotes : votesOf sample_rate vad processed ++
      [(f, vad f.bytes sample_rate)] =
      votesOf sample_rate vad (processed ++ [f]) := by
    rw [votesOf_append]
    rfl
  have hrb2 : dequeAppend W st.ring_buffer (f, vad f.bytes sample_rate) =
      (votesOf sample_rate vad (processed ++ [f])).drop c' := by
    rw [hrb, hrb', hvotes]
  have hvl : (votesOf sample_rate vad processed).length = processed.length := by
    rw [votesOf, List.length_map]
  have hc2 : c' ≤ (processed ++ [f]).length := by
    simp only [List.length_append, List.length_cons, List.length_nil]
    omega
  rw [vadStepCore_eq]
  by_cases ht : st.triggered = false
  · have hvf0 : st.voiced_frames = [] := hempty ht
    rw [if_pos ht]
    by_cases hcond : exceedsThreshold
        (numVoiced (dequeAppend W st.ring_buffer (f, vad f.bytes sample_rate)))
        W = true
    · rw [if_pos hcond]
      refine ⟨⟨?_, ?_, ?_⟩, ?_⟩
      · intro h
        simp at h
      · refine ⟨c', hc2, ?_⟩
        rw [hvf0, List.nil_append, hrb2, List.map_drop, votesOf_map_fst]
      · refine ⟨(processed ++ [f]).length, le_refl _, ?_⟩
        rw [show (processed ++ [f]).length =
            (votesOf sample_rate vad (processed ++ [f])).length by
          rw [votesOf, List.length_map],
          List.drop_length]
      · intro B hB
        exact absurd hB (by simp)
    · rw [if_neg hcond]
      refine ⟨⟨fun _ => hvf0, ?_, ⟨c', hc2, hrb2⟩⟩, ?_⟩
      · refine ⟨(processed ++ [f]).length, le_refl _, ?_⟩
        rw [hvf0, List.drop_length]
      · intro B hB
        exact absurd hB (by simp)
  · rw [if_neg ht]
    by_cases hcond : exceedsThreshold
        (numUnvoiced (dequeAppend W st.ring_buffer (f, vad f.bytes sample_rate)))
        W = true
    · rw [if_pos hcond]
      refine ⟨⟨fun _ => rfl, ?_, ?_⟩, ?_⟩
      · refine ⟨(processed ++ [f]).length, le_refl _, ?_⟩
        rw [List.drop_length]
      · refine ⟨(processed ++ [f]).length, le_refl _, ?_⟩
        rw [show (processed ++ [f]).length =
            (votesOf sample_rate vad (processed ++ [f])).length by
          rw [votesOf, List.length_map],
          List.drop_length]
      · intro B hB
        simp only [Option.toList_some, List.mem_singleton] at hB
        subst hB
        refine ⟨a, (processed ++ [f]).length, by simp; omega, le_refl _, ?_⟩
        rw [List.take_of_length_le (by rw [List.length_drop])]
        rw [hvf, List.drop_append_of_le_length ha]
    · rw [if_neg hcond]
      refine ⟨⟨?_, ?_, ⟨c', hc2, hrb2⟩⟩, ?_⟩
      · intro h
        simp at h
      · refine ⟨a, by simp; omega, ?_⟩
        rw [hvf, List.drop_append_of_le_length ha]
      · intro B hB
        exact absurd hB (by simp)

/-- Every segment yielded by the collector loop is a non-empty
consecutive run of its input frames, and the loop maintains the
structural invariant. -/
theorem vadRun_segments (sample_rate W : ℕ) (vad : List ℕ → ℕ → Bool) :
    ∀ (rest processed : List Frame) (st : VadState),
      SegInv sample_rate vad processed st →
      (∀ B ∈ (vadRun sample_rate W vad st rest).1,
        isSegmentOf B (processed ++ rest)) ∧
      SegInv sample_rate vad (processed ++ rest)
        (vadRun sample_rate W vad st rest).2 := by
  intro rest
  induction rest with
  | nil =>
    intro processed st hinv
    constructor
    · intro B hB
      exact absurd hB (by simp [vadRun])
    · simpa using hinv
  | cons f rest ih =>
    intro processed st hinv
    obtain ⟨hstep_inv, hstep_out⟩ := vadStepCore_inv sample_rate W vad processed f st hinv
    obtain ⟨ih_out, ih_inv⟩ := ih (processed ++ [f])
      (vadStepCore W st f (vad f.bytes sample_rate)).1 hstep_inv
    have hassoc : processed ++ [f] ++ rest = processed ++ f :: rest := by simp
    constructor
    · intro B hB
      simp only [vadRun, List.mem_append] at hB
      rcases hB with hB | hB
      · rw [← hassoc]
        exact isSegmentOf_append_right B (processed ++ [f]) rest (hstep_out B hB)
      · rw [← hassoc]
        exact ih_out B hB
    · simp only [vadRun]
      rw [← hassoc]
      exact ih_inv

/-- A segment of frames that all carry at least one byte is non-empty. -/
theorem isSegmentOf_ne_nil (B : List ℕ) (frames : List Frame)
    (hseg : isSegmentOf B frames) (hbytes : ∀ f ∈ frames, f.bytes ≠ []) :
    B ≠ [] := by
  obtain ⟨a, b, hab, hb, hB⟩ := hseg
  have hlen : ((frames.drop a).take (b - a)).length = b - a := by
    rw [List.length_take, List.length_drop]
    omega
  have hne : (frames.drop a).take (b - a) ≠ [] := by
    intro h
    rw [h] at hlen
    simp at hlen
    omega
  obtain ⟨x, t, hxt⟩ := List.exists_cons_of_ne_nil hne
  have hx : x ∈ frames := by
    have hmem : x ∈ (frames.drop a).take (b - a) := by
      rw [hxt]
      exact List.mem_cons_self x t
    exact List.mem_of_mem_drop (List.mem_of_mem_take hmem)
  rw [hB, hxt]
  intro habs
  have hxb : x.bytes = [] := by
    have : x.bytes ++ ((t.map Frame.bytes).flatten) = [] := habs
    exact (List.append_eq_nil.1 this).1
  exact hbytes x hx hxb

/-- The byte concatenation of `m` consecutive Framer frames starting at
frame `a` is the contiguous slice `audio[a*n : (a+m)*n]`. -/
theorem frame_generator_segmentBytes (frame_duration_ms sample_rate : ℕ)
    (audio : List ℕ) (hn : 0 < frameSize frame_duration_ms sample_rate) :
    ∀ (m a : ℕ),
      a + m ≤ (frame_generator frame_duration_ms audio sample_rate).length →
      segmentBytes (((frame_generator frame_duration_ms audio sample_rate).drop a).take m) =
        (audio.drop (a * frameSize frame_duration_ms sample_rate)).take
          (m * frameSize frame_duration_ms sample_rate) := by
  intro m
  induction m with
  | zero =>
    intro a _
    simp [segmentBytes]
  | succ m ihm =>
    intro a ham
    have haf : a < (frame_generator frame_duration_ms audio sample_rate).length := by
      omega
    rw [List.drop_eq_getElem_cons haf, List.take_succ_cons]
    have hcons : segmentBytes
        ((frame_generator frame_duration_ms audio sample_rate)[a] ::
          ((frame_generator frame_duration_ms audio sample_rate).drop (a + 1)).take m) =
        (frame_generator frame_duration_ms audio sample_rate)[a].bytes ++
          segmentBytes
            (((frame_generator frame_duration_ms audio sample_rate).drop (a + 1)).take m) := by
      rfl
    rw [hcons, ihm (a + 1) (by omega),
      frame_generator_getElem_eq _ _ _ _ hn haf]
    rw [show (m + 1) * frameSize frame_duration_ms sample_rate =
      frameSize frame_duration_ms sample_rate +
        m * frameSize frame_duration_ms sample_rate by ring]
    rw [List.take_add, List.drop_drop,
      show a * frameSize frame_duration_ms sample_rate +
        frameSize frame_duration_ms sample_rate =
        (a + 1) * frameSize frame_duration_ms sample_rate by ring]

/-- C10 counterexample: a voiced frame with an empty byte payload makes
the collector yield the empty buffer (here `W = 1`, so the claim's
`W ≥ 1` hypothesis holds), refuting "every byte buffer yielded by the
collector is non-empty" for arbitrary frame sequences. -/
theorem vad_collector_empty_segment_counterexample :
    1 ≤ numPaddingFrames 10 10 ∧
    ([] : List ℕ) ∈ vad_collector 8000 10 10 alwaysVoiced [emptyFrame] :=
  ⟨by decide, by decide⟩

/-- C10 (amended): with ring-buffer capacity `W ≥ 1`, every buffer the
collector yields is the byte concatenation of a non-empty consecutive
run of input frames (no frame skipped or duplicated within a segment),
and is non-empty provided every input frame carries at least one byte;
consequently, when the frames come from the Framer, every yielded buffer
is a contiguous slice of the PCM buffer starting at a multiple of `n`
whose length is a positive multiple of `n`. -/
theorem vad_collector_segments
    (sample_rate frame_duration_ms padding_duration_ms : ℕ)
    (vad : List ℕ → ℕ → Bool)
    (hW : 1 ≤ numPaddingFrames padding_duration_ms frame_duration_ms) :
    (∀ (frames : List Frame) (B : List ℕ),
      B ∈ vad_collector sample_rate frame_duration_ms padding_duration_ms vad frames →
      isSegmentOf B frames ∧ ((∀ f ∈ frames, f.bytes ≠ []) → B ≠ [])) ∧
    (∀ (audio : List ℕ) (B : List ℕ),
      0 < frameSize frame_duration_ms sample_rate →
      B ∈ vad_collector sample_rate frame_duration_ms padding_duration_ms vad
        (frame_generator frame_duration_ms audio sample_rate) →
      ∃ a b : ℕ, a < b ∧
        b * frameSize frame_duration_ms sample_rate ≤ audio.length ∧
        B = (audio.drop (a * frameSize frame_duration_ms sample_rate)).take
          ((b - a) * frameSize frame_duration_ms sample_rate) ∧
        B.length = (b - a) * frameSize frame_duration_ms sample_rate) := by
  have hmain : ∀ (frames : List Frame) (B : List ℕ),
      B ∈ vad_collector sample_rate frame_duration_ms padding_duration_ms vad frames →
      isSegmentOf B frames := by
    intro frames B hB
    have hinit : SegInv sample_rate vad [] initState :=
      ⟨fun _ => rfl, ⟨0, by simp, rfl⟩, ⟨0, by simp, rfl⟩⟩
    obtain ⟨houts, hfin⟩ := vadRun_segments sample_rate
      (numPaddingFrames padding_duration_ms frame_duration_ms) vad frames []
      initState hinit
    rw [List.nil_append] at houts hfin
    have hre : vad_collector sample_rate frame_duration_ms padding_duration_ms
        vad frames =
        if (finalState sample_rate
            (numPaddingFrames padding_duration_ms frame_duration_ms) vad
            frames).voiced_frames.isEmpty
        then runOutputs sample_rate
          (numPaddingFrames padding_duration_ms frame_duration_ms) vad frames
        else runOutputs sample_rate
          (numPaddingFrames padding_duration_ms frame_duration_ms) vad frames ++
          [segmentBytes (finalState sample_rate
            (numPaddingFrames padding_duration_ms frame_duration_ms) vad
            frames).voiced_frames] := rfl
    rw [hre] at hB
    by_cases hemp : (finalState sample_rate
        (numPaddingFrames padding_duration_ms frame_duration_ms) vad
        frames).voiced_frames.isEmpty
    · rw [if_pos hemp] at hB
      exact houts B hB
    · rw [if_neg hemp] at hB
      rw [List.mem_append] at hB
      rcases hB with hB | hB
      · exact houts B hB
      · rw [List.mem_singleton] at hB
        subst hB
        obtain ⟨_, ⟨a, ha, hvf⟩, _⟩ := hfin
        have hvf' : (finalState sample_rate
            (numPaddingFrames padding_duration_ms frame_duration_ms) vad
            frames).voiced_frames = frames.drop a := hvf
        have hne : (finalState sample_rate
            (numPaddingFrames padding_duration_ms frame_duration_ms) vad
            frames).voiced_frames ≠ [] := by
          intro h
          exact hemp (by rw [h]; rfl)
        have halt : a < frames.length := by
          by_contra hge
          exact hne (by rw [hvf', List.drop_eq_nil_of_le (by omega)])
        refine ⟨a, frames.length, halt, le_refl _, ?_⟩
        rw [List.take_of_length_le (by rw [List.length_drop]), hvf']
  constructor
  · intro frames B hB
    exact ⟨hmain frames B hB, fun hbytes =>
      isSegmentOf_ne_nil B frames (hmain frames B hB) hbytes⟩
  · intro audio B hn hB
    obtain ⟨a, b, hab, hb, hBseg⟩ :=
      hmain (frame_generator frame_duration_ms audio sample_rate) B hB
    have hbn : b * frameSize frame_duration_ms sample_rate ≤ audio.length := by
      have h7 := frame_generator_length_mul_le frame_duration_ms sample_rate audio hn
      have := Nat.mul_le_mul_right (frameSize frame_duration_ms sample_rate) hb
      omega
    have hslice := frame_generator_segmentBytes frame_duration_ms sample_rate
      audio hn (b - a) a (by omega)
    have hmul : (b - a) * frameSize frame_duration_ms sample_rate +
        a * frameSize frame_duration_ms sample_rate =
        b * frameSize frame_duration_ms sample_rate := by
      rw [Nat.sub_mul]
      have := Nat.mul_le_mul_right (frameSize frame_duration_ms sample_rate)
        (le_of_lt hab)
      omega
    refine ⟨a, b, hab, hbn, ?_, ?_⟩
    · rw [hBseg, hslice]
    · rw [hBseg, hslice, List.length_take, List.length_drop]
      omega

/-- C10 witness: with `W = 1`, the single segment yielded on one
non-empty always-voiced frame is a consecutive run and non-empty. -/
theorem vad_collector_segments_witness :
    isSegmentOf [1] [⟨[1], 0, 0⟩] ∧
    ((∀ f ∈ ([⟨[1], 0, 0⟩] : List Frame), f.bytes ≠ []) → ([1] : List ℕ) ≠ []) :=
  (vad_collector_segments 8000 10 10 alwaysVoiced (by decide)).1
    [⟨[1], 0, 0⟩] [1] (by decide)

end WavSplit
